import Mathlib

/-!
Verification development for `src/regex.py`, a minimal backtracking regular
expression engine.

Strings are embedded as `List Char`; Python integer indices stay `Nat`.
`RegexFSM.__init__` (pattern compilation) is embedded with explicit passing of
the one piece of shared mutable state in the Python code: `RegexFSM.curr_state`
is a class attribute holding a single `StartState` object, and every
`__init__` call appends the states it builds to that shared object's
`next_states` list.  The matcher `RegexFSM._match` is embedded twice, once as
the total function `matchRec` (well-founded recursion on the indices) and once
as the depth-instrumented, bounds-checked evaluator `matchChecked`, which
reports an out-of-range index access (`MRes.err`, a Python `IndexError`) or an
exhausted recursion-depth budget (`MRes.fuelOut`) explicitly.
-/

/-- Python `str.isascii()` on a single character: code point below 128. -/
def isascii (c : Char) : Bool := decide (c.toNat < 128)

/-- The state objects built by compilation: `StartState`, `TerminationState`,
`DotState`, `AsciiState(symbol)`, `StarState(checking_state)`,
`PlusState(checking_state)` from `src/regex.py`. -/
inductive StateObj where
  | start : StateObj
  | termination : StateObj
  | dot : StateObj
  | ascii (sym : Char) : StateObj
  | star (checking : StateObj) : StateObj
  | plus (checking : StateObj) : StateObj
deriving DecidableEq, Repr

/-- `RegexFSM.__init_next_state`: the `match` over the next token, in source
order: `"."`, `"*"`, `"+"`, any `isascii` token, otherwise
`AttributeError("Character is not supported")`. -/
def initNextState (tok : Char) (tmp : StateObj) : Except String StateObj :=
  if tok = '.' then Except.ok StateObj.dot
  else if tok = '*' then Except.ok (StateObj.star tmp)
  else if tok = '+' then Except.ok (StateObj.plus tmp)
  else if isascii tok then Except.ok (StateObj.ascii tok)
  else Except.error "Character is not supported"

/-- The loop of `RegexFSM.__init__`: `prev_state` is always the shared
`StartState`, so every new state is appended to its `next_states` list (`acc`
here); `tmp_next_state` (initially the `StartState` itself) is threaded as the
state wrapped by a following quantifier.  After the loop a
`TerminationState` is appended.  On an unsupported token the exception
propagates and the appends made so far remain (the second component). -/
def initLoop : List Char → StateObj → List StateObj → Except String Unit × List StateObj
  | [], _, acc => (Except.ok (), acc ++ [StateObj.termination])
  | c :: rest, tmp, acc =>
    match initNextState c tmp with
    | Except.error e => (Except.error e, acc)
    | Except.ok ns => initLoop rest ns (acc ++ [ns])

/-- The compiled object: `RegexFSM` stores the pattern string `regex_expr`
(the matcher reads only this field). -/
structure RegexFSM where
  regex_expr : List Char
deriving DecidableEq, Repr

/-- The shared mutable state of the Python program: the `next_states` list of
the single class-level `StartState` stored in the class attribute
`RegexFSM.curr_state`.  Every `RegexFSM` instance reads the same object. -/
structure GlobalState where
  startNextStates : List StateObj
deriving DecidableEq, Repr

/-- The shared `StartState` as freshly constructed: `next_states` empty. -/
def emptyGlobal : GlobalState := GlobalState.mk []

/-- `RegexFSM(regex_expr)`: runs the `__init__` loop against the shared
`StartState`'s `next_states` list and returns the constructed object (or the
propagated exception) together with the updated shared state. -/
def RegexFSM_new (pattern : List Char) (g : GlobalState) :
    Except String RegexFSM × GlobalState :=
  match initLoop pattern StateObj.start g.startNextStates with
  | (Except.ok _, l) => (Except.ok (RegexFSM.mk pattern), GlobalState.mk l)
  | (Except.error e, l) => (Except.error e, GlobalState.mk l)

/-- Compilation as seen by a caller: the constructed `RegexFSM` object (which
is independent of the shared state's current contents). -/
def compileFSM (p : List Char) : Except String RegexFSM :=
  (RegexFSM_new p emptyGlobal).1

/-- `first_match` of `RegexFSM._match`:
`i < len(s) and char in (s[i], '.')` with `char = p[j]`. -/
def firstMatchAt (s p : List Char) (i j : Nat) : Bool :=
  decide (i < s.length) &&
    (decide (p.getD j ' ' = s.getD i ' ') || decide (p.getD j ' ' = '.'))

/-- `RegexFSM._match(s, i, p, j)` as a total function.  The branch structure
mirrors the source: base case `j == len(p)`; `next_is_quant` is
`j + 1 < len(p) and p[j+1] in '*+'`; the `'*'` case tries `(i, j+2)` then,
when `first_match`, `(i+1, j)`; the `'+'` case requires `first_match` and
tries `(i+1, j)` or `(i+1, j+2)`; otherwise `first_match` and `(i+1, j+1)`. -/
def matchRec (s p : List Char) (i j : Nat) : Bool :=
  if j = p.length then decide (i = s.length)
  else if hq : j + 1 < p.length ∧ (p.getD (j+1) ' ' = '*' ∨ p.getD (j+1) ' ' = '+') then
    if hfm : i < s.length ∧ (p.getD j ' ' = s.getD i ' ' ∨ p.getD j ' ' = '.') then
      if p.getD (j+1) ' ' = '*' then
        matchRec s p i (j+2) || matchRec s p (i+1) j
      else
        matchRec s p (i+1) j || matchRec s p (i+1) (j+2)
    else
      if p.getD (j+1) ' ' = '*' then matchRec s p i (j+2) else false
  else
    if hfm : i < s.length ∧ (p.getD j ' ' = s.getD i ' ' ∨ p.getD j ' ' = '.') then
      matchRec s p (i+1) (j+1)
    else false
termination_by s.length - i + (p.length - j)
decreasing_by
  all_goals simp_wf
  · obtain ⟨h1, -⟩ := hq; omega
  · obtain ⟨h1, -⟩ := hq; obtain ⟨h2, -⟩ := hfm; omega
  · obtain ⟨h1, -⟩ := hq; obtain ⟨h2, -⟩ := hfm; omega
  · obtain ⟨h1, -⟩ := hq; obtain ⟨h2, -⟩ := hfm; omega
  · obtain ⟨h1, -⟩ := hq; omega
  · obtain ⟨h2, -⟩ := hfm; omega

/-- `RegexFSM.check_string(input_str)`:
`self._match(input_str, 0, self.regex_expr, 0)`. -/
def check_string (fsm : RegexFSM) (s : List Char) : Bool :=
  matchRec s fsm.regex_expr 0 0

/-- `RegexFSM(p).check_string(s)` for a caller: `none` when compilation
raises, otherwise the matcher's verdict. -/
def matchesP (p s : List Char) : Option Bool :=
  match compileFSM p with
  | Except.ok fsm => some (check_string fsm s)
  | Except.error _ => none

/-- Result of one bounds-checked, depth-bounded evaluation of
`RegexFSM._match`. -/
inductive MRes where
  | ok (b : Bool) : MRes
  | err : MRes
  | fuelOut : MRes
deriving DecidableEq, Repr

/-- `RegexFSM._match` instrumented: recursion depth is bounded by the first
argument (`MRes.fuelOut` when exhausted) and the one unguarded index access of
the source, `char = p[j]`, is checked (`MRes.err` is a Python `IndexError`).
The accesses `p[j+1]` and `s[i]` are guarded by `and` short-circuiting in the
source, so a default read models them exactly. -/
def matchChecked : Nat → List Char → List Char → Nat → Nat → MRes
  | 0, _, _, _, _ => MRes.fuelOut
  | Nat.succ n, s, p, i, j =>
    if j = p.length then MRes.ok (decide (i = s.length))
    else
      match p.get? j with
      | none => MRes.err
      | some c =>
        if decide (j + 1 < p.length) &&
            (decide (p.getD (j+1) ' ' = '*') || decide (p.getD (j+1) ' ' = '+')) then
          if p.getD (j+1) ' ' = '*' then
            match matchChecked n s p i (j+2) with
            | MRes.ok true => MRes.ok true
            | MRes.ok false =>
              if decide (i < s.length) && (decide (c = s.getD i ' ') || decide (c = '.')) then
                matchChecked n s p (i+1) j
              else MRes.ok false
            | r => r
          else
            if decide (i < s.length) && (decide (c = s.getD i ' ') || decide (c = '.')) then
              match matchChecked n s p (i+1) j with
              | MRes.ok true => MRes.ok true
              | MRes.ok false => matchChecked n s p (i+1) (j+2)
              | r => r
            else MRes.ok false
        else
          if decide (i < s.length) && (decide (c = s.getD i ' ') || decide (c = '.')) then
            matchChecked n s p (i+1) (j+1)
          else MRes.ok false

/-- The specification's matcher for quantifier-free patterns, following its
words: "exact string equality after substituting `.` as a wildcard for exactly
one character (pattern length must equal input length)".  First argument the
pattern, second the input. -/
def specWildcardMatch : List Char → List Char → Bool
  | [], [] => true
  | [], _ :: _ => false
  | _ :: _, [] => false
  | pc :: pr, sc :: sr => (decide (pc = sc) || decide (pc = '.')) && specWildcardMatch pr sr

/-- `firstMatchAt` as a proposition. -/
theorem firstMatchAt_true (s p : List Char) (i j : Nat) :
    firstMatchAt s p i j = true ↔
      (i < s.length ∧ (p.getD j ' ' = s.getD i ' ' ∨ p.getD j ' ' = '.')) := by
  simp [firstMatchAt]

/-- `firstMatchAt` negated. -/
theorem firstMatchAt_false (s p : List Char) (i j : Nat) :
    firstMatchAt s p i j = false ↔
      ¬ (i < s.length ∧ (p.getD j ' ' = s.getD i ' ' ∨ p.getD j ' ' = '.')) := by
  rw [← Bool.not_eq_true, firstMatchAt_true]

/-- One-step unfolding of `matchRec`, with `first_match` written through
`firstMatchAt` and the branch results combined with boolean operators exactly
as the source's early returns combine them. -/
theorem matchRec_eq (s p : List Char) (i j : Nat) :
    matchRec s p i j =
      (if j = p.length then decide (i = s.length)
       else if j + 1 < p.length ∧ (p.getD (j+1) ' ' = '*' ∨ p.getD (j+1) ' ' = '+') then
         (if p.getD (j+1) ' ' = '*' then
            matchRec s p i (j+2) || (firstMatchAt s p i j && matchRec s p (i+1) j)
          else
            firstMatchAt s p i j && (matchRec s p (i+1) j || matchRec s p (i+1) (j+2)))
       else firstMatchAt s p i j && matchRec s p (i+1) (j+1)) := by
  rw [matchRec]
  by_cases hb : j = p.length
  · rw [if_pos hb, if_pos hb]
  · rw [if_neg hb, if_neg hb]
    by_cases hq : j + 1 < p.length ∧ (p.getD (j+1) ' ' = '*' ∨ p.getD (j+1) ' ' = '+')
    · rw [dif_pos hq, if_pos hq]
      by_cases hfm : i < s.length ∧ (p.getD j ' ' = s.getD i ' ' ∨ p.getD j ' ' = '.')
      · have hf : firstMatchAt s p i j = true := (firstMatchAt_true s p i j).mpr hfm
        rw [dif_pos hfm, hf]
        by_cases hstar : p.getD (j+1) ' ' = '*'
        · rw [if_pos hstar, if_pos hstar]; simp
        · rw [if_neg hstar, if_neg hstar]; simp
      · have hf : firstMatchAt s p i j = false := (firstMatchAt_false s p i j).mpr hfm
        rw [dif_neg hfm, hf]
        by_cases hstar : p.getD (j+1) ' ' = '*'
        · rw [if_pos hstar, if_pos hstar]; simp
        · rw [if_neg hstar, if_neg hstar]; simp
    · rw [dif_neg hq, if_neg hq]
      by_cases hfm : i < s.length ∧ (p.getD j ' ' = s.getD i ' ' ∨ p.getD j ' ' = '.')
      · have hf : firstMatchAt s p i j = true := (firstMatchAt_true s p i j).mpr hfm
        rw [dif_pos hfm, hf]; simp
      · have hf : firstMatchAt s p i j = false := (firstMatchAt_false s p i j).mpr hfm
        rw [dif_neg hfm, hf]; simp


/-- With a recursion-depth budget exceeding `(len(s) - i) + (len(p) - j)` and
the invariant `j ≤ len(p)` (which `check_string` establishes and every
recursive call maintains), the instrumented evaluator neither raises an
`IndexError` nor runs out of budget: it returns exactly `matchRec`. -/
theorem matchChecked_correct : ∀ (n : Nat) (s p : List Char) (i j : Nat),
    s.length - i + (p.length - j) < n → j ≤ p.length →
    matchChecked n s p i j = MRes.ok (matchRec s p i j) := by
  intro n
  induction n with
  | zero => intro s p i j h hj; omega
  | succ n ih =>
    intro s p i j hn hj
    by_cases hb : j = p.length
    · simp only [matchChecked]
      rw [if_pos hb, matchRec_eq, if_pos hb]
    · have hjlt : j < p.length := Nat.lt_of_le_of_ne hj hb
      have hget : p.get? j = some (p.getD j ' ') := by
        rw [List.get?_eq_get hjlt, List.getD_eq_getElem p ' ' hjlt]
        rfl
      simp only [matchChecked]
      rw [if_neg hb, hget]
      dsimp only
      rw [matchRec_eq, if_neg hb]
      by_cases hq : j + 1 < p.length ∧ (p.getD (j+1) ' ' = '*' ∨ p.getD (j+1) ' ' = '+')
      · have hqb : (decide (j + 1 < p.length) &&
            (decide (p.getD (j+1) ' ' = '*') || decide (p.getD (j+1) ' ' = '+'))) = true := by
          simp only [Bool.and_eq_true, Bool.or_eq_true, decide_eq_true_eq]; exact hq
        rw [if_pos hq, hqb, if_pos rfl]
        by_cases hfm : i < s.length ∧ (p.getD j ' ' = s.getD i ' ' ∨ p.getD j ' ' = '.')
        · have hf : firstMatchAt s p i j = true := (firstMatchAt_true s p i j).mpr hfm
          have hfb : (decide (i < s.length) &&
              (decide (p.getD j ' ' = s.getD i ' ') || decide (p.getD j ' ' = '.'))) = true := by
            simp only [Bool.and_eq_true, Bool.or_eq_true, decide_eq_true_eq]; exact hfm
          by_cases hstar : p.getD (j+1) ' ' = '*'
          · rw [if_pos hstar, if_pos hstar]
            rw [ih s p i (j+2) (by omega) (by omega)]
            cases hrec : matchRec s p i (j+2) with
            | true => dsimp only; simp
            | false =>
              dsimp only
              rw [hfb, if_pos rfl, hf, Bool.true_and, Bool.false_or]
              exact ih s p (i+1) j (by omega) hj
          · rw [if_neg hstar, if_neg hstar]
            rw [hfb, if_pos rfl, hf, Bool.true_and]
            rw [ih s p (i+1) j (by omega) hj]
            cases hrec : matchRec s p (i+1) j with
            | true => dsimp only; simp
            | false =>
              dsimp only
              rw [Bool.false_or]
              exact ih s p (i+1) (j+2) (by omega) (by omega)
        · have hf : firstMatchAt s p i j = false := (firstMatchAt_false s p i j).mpr hfm
          have hfb : (decide (i < s.length) &&
              (decide (p.getD j ' ' = s.getD i ' ') || decide (p.getD j ' ' = '.'))) = false := by
            rw [Bool.eq_false_iff]
            simp only [ne_eq, Bool.and_eq_true, Bool.or_eq_true, decide_eq_true_eq]
            exact hfm
          by_cases hstar : p.getD (j+1) ' ' = '*'
          · rw [if_pos hstar, if_pos hstar]
            rw [ih s p i (j+2) (by omega) (by omega)]
            cases hrec : matchRec s p i (j+2) with
            | true => dsimp only; simp
            | false =>
              dsimp only
              rw [hfb, if_neg Bool.false_ne_true, hf, Bool.false_and, Bool.false_or]
          · rw [if_neg hstar, if_neg hstar]
            rw [hfb, if_neg Bool.false_ne_true, hf, Bool.false_and]
      · have hqb : (decide (j + 1 < p.length) &&
            (decide (p.getD (j+1) ' ' = '*') || decide (p.getD (j+1) ' ' = '+'))) = false := by
          rw [Bool.eq_false_iff]
          simp only [ne_eq, Bool.and_eq_true, Bool.or_eq_true, decide_eq_true_eq]
          exact hq
        rw [if_neg hq, hqb, if_neg Bool.false_ne_true]
        by_cases hfm : i < s.length ∧ (p.getD j ' ' = s.getD i ' ' ∨ p.getD j ' ' = '.')
        · have hf : firstMatchAt s p i j = true := (firstMatchAt_true s p i j).mpr hfm
          have hfb : (decide (i < s.length) &&
              (decide (p.getD j ' ' = s.getD i ' ') || decide (p.getD j ' ' = '.'))) = true := by
            simp only [Bool.and_eq_true, Bool.or_eq_true, decide_eq_true_eq]; exact hfm
          rw [hfb, if_pos rfl, hf, Bool.true_and]
          exact ih s p (i+1) (j+1) (by omega) (by omega)
        · have hf : firstMatchAt s p i j = false := (firstMatchAt_false s p i j).mpr hfm
          have hfb : (decide (i < s.length) &&
              (decide (p.getD j ' ' = s.getD i ' ') || decide (p.getD j ' ' = '.'))) = false := by
            rw [Bool.eq_false_iff]
            simp only [ne_eq, Bool.and_eq_true, Bool.or_eq_true, decide_eq_true_eq]
            exact hfm
          rw [hfb, if_neg Bool.false_ne_true, hf, Bool.false_and]

/-- Evaluation rule: a run of the instrumented evaluator with budget
`len(s) + len(p) + 1` determines `matchRec` at the top-level call. -/
theorem matchRec_eval (s p : List Char) (b : Bool)
    (h : matchChecked (s.length + p.length + 1) s p 0 0 = MRes.ok b) :
    matchRec s p 0 0 = b := by
  have hc := matchChecked_correct (s.length + p.length + 1) s p 0 0 (by omega) (by omega)
  rw [h] at hc
  injection hc with hb
  exact hb.symm

/-- `check_string` on a constructed object reads only `regex_expr`. -/
theorem check_string_mk (p s : List Char) :
    check_string (RegexFSM.mk p) s = matchRec s p 0 0 := rfl

/-- `__init_next_state` succeeds on an `isascii` token (the three operator
tokens are themselves `isascii`). -/
theorem initNextState_ok (c : Char) (tmp : StateObj) (hc : isascii c = true) :
    initNextState c tmp =
      Except.ok (if c = '.' then StateObj.dot
                 else if c = '*' then StateObj.star tmp
                 else if c = '+' then StateObj.plus tmp
                 else StateObj.ascii c) := by
  unfold initNextState
  by_cases h1 : c = '.'
  · simp [h1]
  · by_cases h2 : c = '*'
    · simp [h1, h2]
    · by_cases h3 : c = '+' <;> simp [h1, h2, h3, hc]

/-- `__init_next_state` raises `AttributeError("Character is not supported")`
exactly on a non-`isascii` token. -/
theorem initNextState_err (c : Char) (tmp : StateObj) (hc : isascii c = false) :
    initNextState c tmp = Except.error "Character is not supported" := by
  have h1 : c ≠ '.' := by intro h; rw [h] at hc; simp [isascii] at hc
  have h2 : c ≠ '*' := by intro h; rw [h] at hc; simp [isascii] at hc
  have h3 : c ≠ '+' := by intro h; rw [h] at hc; simp [isascii] at hc
  unfold initNextState
  simp [h1, h2, h3, hc]

/-- The `__init__` loop succeeds exactly when every remaining token is
`isascii`, always with the same error message. -/
theorem initLoop_fst (chars : List Char) : ∀ (tmp : StateObj) (acc : List StateObj),
    (initLoop chars tmp acc).1 =
      (if chars.all isascii then Except.ok ()
       else Except.error "Character is not supported") := by
  induction chars with
  | nil => intro tmp acc; simp [initLoop]
  | cons c rest ih =>
    intro tmp acc
    simp only [initLoop]
    by_cases hc : isascii c = true
    · rw [initNextState_ok c tmp hc]
      dsimp only
      rw [ih]
      simp [hc]
    · rw [initNextState_err c tmp (Bool.eq_false_iff.mpr hc)]
      dsimp only
      have : (c :: rest).all isascii = false := by
        simp only [List.all_cons, Bool.and_eq_false_iff]
        left
        exact Bool.eq_false_iff.mpr hc
      rw [this, if_neg Bool.false_ne_true]

/-- `RegexFSM(p)` constructs `RegexFSM.mk p` when every token is `isascii`,
and otherwise raises `AttributeError("Character is not supported")`;
the outcome does not depend on the shared state's current contents. -/
theorem RegexFSM_new_fst (p : List Char) (g : GlobalState) :
    (RegexFSM_new p g).1 =
      (if p.all isascii then Except.ok (RegexFSM.mk p)
       else Except.error "Character is not supported") := by
  unfold RegexFSM_new
  have h := initLoop_fst p StateObj.start g.startNextStates
  rcases hr : initLoop p StateObj.start g.startNextStates with ⟨r, l⟩
  rw [hr] at h
  dsimp only at h
  cases r with
  | ok u =>
    dsimp only
    by_cases hall : p.all isascii = true
    · rw [if_pos hall]
    · rw [if_neg hall] at h ⊢
      exact absurd h (by simp)
  | error e =>
    dsimp only
    by_cases hall : p.all isascii = true
    · rw [if_pos hall] at h
      exact absurd h (by simp)
    · rw [if_neg hall] at h ⊢
      injection h with he
      rw [he]

/-- Evaluation rule for `matchesP` through the instrumented evaluator. -/
theorem matchesP_eval (p s : List Char) (b : Bool)
    (hall : p.all isascii = true)
    (h : matchChecked (s.length + p.length + 1) s p 0 0 = MRes.ok b) :
    matchesP p s = some b := by
  unfold matchesP compileFSM
  rw [RegexFSM_new_fst, if_pos hall]
  dsimp only
  rw [check_string_mk, matchRec_eval s p b h]

/-- On a pattern with no `'*'` and no `'+'`, the matcher from position
`(i, j)` is the spec's wildcard comparison of the remaining pattern against
the remaining input. -/
theorem matchRec_noquant (s p : List Char) (hp : ∀ c ∈ p, c ≠ '*' ∧ c ≠ '+')
    (j i : Nat) (hj : j ≤ p.length) (hi : i ≤ s.length) :
    matchRec s p i j = specWildcardMatch (p.drop j) (s.drop i) := by
  by_cases hb : j = p.length
  · rw [matchRec_eq, if_pos hb]
    have hdp : p.drop j = [] := by rw [hb, List.drop_length]
    rw [hdp]
    by_cases hie : i = s.length
    · have hds : s.drop i = [] := by rw [hie, List.drop_length]
      rw [hds]
      simp [specWildcardMatch, hie]
    · have hilt : i < s.length := Nat.lt_of_le_of_ne hi hie
      have hds : s.drop i = s.getD i ' ' :: s.drop (i+1) := by
        rw [List.drop_eq_getElem_cons hilt, List.getD_eq_getElem s ' ' hilt]
      rw [hds]
      simp [specWildcardMatch, hie]
  · have hjlt : j < p.length := Nat.lt_of_le_of_ne hj hb
    have hq : ¬ (j + 1 < p.length ∧ (p.getD (j+1) ' ' = '*' ∨ p.getD (j+1) ' ' = '+')) := by
      rintro ⟨h1, h2⟩
      have hmem : p.getD (j+1) ' ' ∈ p := by
        rw [List.getD_eq_getElem p ' ' h1]
        exact List.getElem_mem h1
      rcases h2 with h2 | h2
      · exact (hp _ hmem).1 h2
      · exact (hp _ hmem).2 h2
    rw [matchRec_eq, if_neg hb, if_neg hq]
    have hdp : p.drop j = p.getD j ' ' :: p.drop (j+1) := by
      rw [List.drop_eq_getElem_cons hjlt, List.getD_eq_getElem p ' ' hjlt]
    rw [hdp]
    by_cases hie : i = s.length
    · have hds : s.drop i = [] := by rw [hie, List.drop_length]
      rw [hds]
      have hf : firstMatchAt s p i j = false := by
        rw [firstMatchAt_false]; rintro ⟨h1, -⟩; omega
      rw [hf, Bool.false_and]
      rfl
    · have hilt : i < s.length := Nat.lt_of_le_of_ne hi hie
      have hds : s.drop i = s.getD i ' ' :: s.drop (i+1) := by
        rw [List.drop_eq_getElem_cons hilt, List.getD_eq_getElem s ' ' hilt]
      rw [hds]
      rw [show specWildcardMatch (p.getD j ' ' :: p.drop (j+1)) (s.getD i ' ' :: s.drop (i+1))
            = ((decide (p.getD j ' ' = s.getD i ' ') || decide (p.getD j ' ' = '.')) &&
               specWildcardMatch (p.drop (j+1)) (s.drop (i+1))) from rfl]
      rw [← matchRec_noquant s p hp (j+1) (i+1) (by omega) (by omega)]
      simp [firstMatchAt, hilt]
termination_by p.length - j
decreasing_by simp_wf; omega

/-- The spec's wildcard comparison, characterised pointwise. -/
theorem specWildcardMatch_iff (p : List Char) : ∀ (s : List Char),
    specWildcardMatch p s = true ↔
      (s.length = p.length ∧
       ∀ k, k < p.length → (s.getD k ' ' = p.getD k ' ' ∨ p.getD k ' ' = '.')) := by
  induction p with
  | nil =>
    intro s
    cases s with
    | nil => simp [specWildcardMatch]
    | cons a t => simp [specWildcardMatch]
  | cons pc pr ih =>
    intro s
    cases s with
    | nil => simp [specWildcardMatch]
    | cons sc sr =>
      rw [show specWildcardMatch (pc :: pr) (sc :: sr)
            = ((decide (pc = sc) || decide (pc = '.')) && specWildcardMatch pr sr) from rfl]
      rw [Bool.and_eq_true, ih sr]
      constructor
      · rintro ⟨h1, hlen, hall⟩
        simp only [Bool.or_eq_true, decide_eq_true_eq] at h1
        refine ⟨by simpa using hlen, ?_⟩
        intro k hk
        cases k with
        | zero =>
          simp only [List.getD_cons_zero]
          rcases h1 with h | h
          · left; exact h.symm
          · right; exact h
        | succ k =>
          simp only [List.getD_cons_succ]
          have hk2 : k < pr.length := by
            simp only [List.length_cons] at hk; omega
          exact hall k hk2
      · rintro ⟨hlen, hall⟩
        refine ⟨?_, by simpa using hlen, ?_⟩
        · have h0 := hall 0 (by simp)
          simp only [List.getD_cons_zero] at h0
          simp only [Bool.or_eq_true, decide_eq_true_eq]
          rcases h0 with h | h
          · exact Or.inl h.symm
          · exact Or.inr h
        · intro k hk
          have h1 := hall (k+1) (by simp only [List.length_cons]; omega)
          simpa only [List.getD_cons_succ] using h1

/-- Extracting the constructed object from a successful `RegexFSM(p)` call:
it is `RegexFSM.mk p`, whatever the shared state held. -/
theorem RegexFSM_new_ok_eq (p : List Char) (g : GlobalState) (fsm : RegexFSM)
    (hc : (RegexFSM_new p g).1 = Except.ok fsm) : fsm = RegexFSM.mk p := by
  rw [RegexFSM_new_fst] at hc
  by_cases hall : p.all isascii = true
  · rw [if_pos hall] at hc
    injection hc with h
    exact h.symm
  · rw [if_neg hall] at hc
    exact absurd hc (by simp)

/-- Claim C1: when the pattern element at position `j` is followed by `'*'`,
the matcher's verdict is the zero-occurrence branch `(i, j+2)`, or else, when
`first_match` holds, the one-more-occurrence branch `(i+1, j)`; consequently
`"a*"` matches `""` and `"aaaa"` and does not match `"b"`. -/
theorem star_branch_semantics (s p : List Char) (i j : Nat)
    (hj : j + 1 < p.length) (hstar : p.getD (j+1) ' ' = '*') :
    (matchRec s p i j
      = (matchRec s p i (j+2) || (firstMatchAt s p i j && matchRec s p (i+1) j)))
    ∧ matchesP ['a','*'] [] = some true
    ∧ matchesP ['a','*'] ['a','a','a','a'] = some true
    ∧ matchesP ['a','*'] ['b'] = some false := by
  refine ⟨?_, ?_, ?_, ?_⟩
  · rw [matchRec_eq, if_neg (by omega), if_pos ⟨hj, Or.inl hstar⟩, if_pos hstar]
  · exact matchesP_eval _ _ _ (by decide) (by decide)
  · exact matchesP_eval _ _ _ (by decide) (by decide)
  · exact matchesP_eval _ _ _ (by decide) (by decide)

/-- Witness for the claim C1 theorem at `s = "b"`, `p = "a*"`, `i = 0`,
`j = 0`. -/
theorem star_branch_semantics_witness :
    (matchRec ['b'] ['a','*'] 0 0
      = (matchRec ['b'] ['a','*'] 0 2 || (firstMatchAt ['b'] ['a','*'] 0 0 && matchRec ['b'] ['a','*'] 1 0)))
    ∧ matchesP ['a','*'] [] = some true
    ∧ matchesP ['a','*'] ['a','a','a','a'] = some true
    ∧ matchesP ['a','*'] ['b'] = some false :=
  star_branch_semantics ['b'] ['a','*'] 0 0 (by decide) (by decide)

/-- Claim C2: when the pattern element at position `j` is followed by `'+'`,
the matcher fails unless `first_match` holds, and otherwise succeeds exactly
when recursing at `(i+1, j)` or at `(i+1, j+2)` succeeds; consequently `"a+"`
does not match `""` and matches `"a"` and `"aaa"`. -/
theorem plus_branch_semantics (s p : List Char) (i j : Nat)
    (hj : j + 1 < p.length) (hplus : p.getD (j+1) ' ' = '+') :
    (matchRec s p i j
      = (firstMatchAt s p i j && (matchRec s p (i+1) j || matchRec s p (i+1) (j+2))))
    ∧ matchesP ['a','+'] [] = some false
    ∧ matchesP ['a','+'] ['a'] = some true
    ∧ matchesP ['a','+'] ['a','a','a'] = some true := by
  refine ⟨?_, ?_, ?_, ?_⟩
  · have hns : ¬ (p.getD (j+1) ' ' = '*') := by rw [hplus]; decide
    rw [matchRec_eq, if_neg (by omega), if_pos ⟨hj, Or.inr hplus⟩, if_neg hns]
  · exact matchesP_eval _ _ _ (by decide) (by decide)
  · exact matchesP_eval _ _ _ (by decide) (by decide)
  · exact matchesP_eval _ _ _ (by decide) (by decide)

/-- Witness for the claim C2 theorem at `s = "a"`, `p = "a+"`, `i = 0`,
`j = 0`. -/
theorem plus_branch_semantics_witness :
    (matchRec ['a'] ['a','+'] 0 0
      = (firstMatchAt ['a'] ['a','+'] 0 0 && (matchRec ['a'] ['a','+'] 1 0 || matchRec ['a'] ['a','+'] 1 2)))
    ∧ matchesP ['a','+'] [] = some false
    ∧ matchesP ['a','+'] ['a'] = some true
    ∧ matchesP ['a','+'] ['a','a','a'] = some true :=
  plus_branch_semantics ['a'] ['a','+'] 0 0 (by decide) (by decide)

/-- Claim C3: on a compiled pattern containing no `'*'` and no `'+'`,
matching succeeds exactly when the input has the pattern's length and each
input character equals the pattern character at the same position or that
pattern character is `'.'`; in particular `"."` matches any one-character
input and matches neither the empty input nor any two-character input. -/
theorem noquant_exact_equality (p : List Char) (fsm : RegexFSM) (s : List Char)
    (c c1 c2 : Char)
    (hc : compileFSM p = Except.ok fsm)
    (hp : ∀ x ∈ p, x ≠ '*' ∧ x ≠ '+') :
    (check_string fsm s = true ↔
      (s.length = p.length ∧
       ∀ k, k < p.length → (s.getD k ' ' = p.getD k ' ' ∨ p.getD k ' ' = '.')))
    ∧ matchesP ['.'] [c] = some true
    ∧ matchesP ['.'] [] = some false
    ∧ matchesP ['.'] [c1, c2] = some false := by
  have hfsm : fsm = RegexFSM.mk p := RegexFSM_new_ok_eq p emptyGlobal fsm hc
  subst hfsm
  refine ⟨?_, ?_, ?_, ?_⟩
  · rw [check_string_mk, matchRec_noquant s p hp 0 0 (by omega) (by omega),
        List.drop_zero, List.drop_zero, specWildcardMatch_iff]
  · unfold matchesP compileFSM
    rw [RegexFSM_new_fst, if_pos (by decide)]
    dsimp only
    rw [check_string_mk,
        matchRec_noquant [c] ['.'] (by decide) 0 0 (by omega) (by omega)]
    simp [specWildcardMatch]
  · exact matchesP_eval _ _ _ (by decide) (by decide)
  · unfold matchesP compileFSM
    rw [RegexFSM_new_fst, if_pos (by decide)]
    dsimp only
    rw [check_string_mk,
        matchRec_noquant [c1, c2] ['.'] (by decide) 0 0 (by omega) (by omega)]
    simp [specWildcardMatch]

/-- Witness for the claim C3 theorem at `p = "a"`, `s = "a"` and
single characters `x`, `x`, `y`. -/
theorem noquant_exact_equality_witness :
    (check_string (RegexFSM.mk ['a']) ['a'] = true ↔
      ((['a'] : List Char).length = (['a'] : List Char).length ∧
       ∀ k, k < (['a'] : List Char).length →
         ((['a'] : List Char).getD k ' ' = (['a'] : List Char).getD k ' '
          ∨ (['a'] : List Char).getD k ' ' = '.')))
    ∧ matchesP ['.'] ['x'] = some true
    ∧ matchesP ['.'] [] = some false
    ∧ matchesP ['.'] ['x', 'y'] = some false :=
  noquant_exact_equality ['a'] (RegexFSM.mk ['a']) ['a'] 'x' 'x' 'y' rfl (by decide)

/-- Claim C4: for the pattern `"a*4.+hi"`, matching returns `true` on
`"aaaaaa4uhi"`, `true` on `"4uhi"`, and `false` on `"meow"`. -/
theorem scenario_pattern_star_dot_plus :
    matchesP "a*4.+hi".toList "aaaaaa4uhi".toList = some true
    ∧ matchesP "a*4.+hi".toList "4uhi".toList = some true
    ∧ matchesP "a*4.+hi".toList "meow".toList = some false :=
  ⟨matchesP_eval _ _ _ (by decide) (by decide),
   matchesP_eval _ _ _ (by decide) (by decide),
   matchesP_eval _ _ _ (by decide) (by decide)⟩

/-- Counterexample to claim C5 as stated: compiling `"a$b"` does not fail
with an error; it succeeds, because `'$'` is an ASCII character and the
compiler accepts every ASCII token. -/
theorem compile_dollar_succeeds :
    compileFSM "a$b".toList = Except.ok (RegexFSM.mk "a$b".toList) := rfl

/-- Claim C5, amended: compilation fails, always with the message
`"Character is not supported"` (the offending character is not named),
exactly when some pattern character is outside the accepted set, which is
every character of code point below 128 — printable or not — with `'.'`,
`'*'` and `'+'` themselves in that set; this is the only compile-time error
condition, and in particular compiling `"a$b"` succeeds. -/
theorem compile_accepts_exactly_ascii (p : List Char) :
    (compileFSM p =
      (if p.all isascii then Except.ok (RegexFSM.mk p)
       else Except.error "Character is not supported"))
    ∧ compileFSM "a$b".toList = Except.ok (RegexFSM.mk "a$b".toList) :=
  ⟨RegexFSM_new_fst p emptyGlobal, rfl⟩

/-- Claim C6: matching a well-formed compiled pattern never raises: the
bounds-checked evaluation completes within the budget `len(s) + len(p) + 1`
without an `IndexError`, returning the boolean verdict of `check_string`
(`false` on every string the pattern does not fully match). -/
theorem match_never_raises (p : List Char) (fsm : RegexFSM)
    (hc : compileFSM p = Except.ok fsm) (s : List Char) :
    matchChecked (s.length + p.length + 1) s fsm.regex_expr 0 0
      = MRes.ok (check_string fsm s) := by
  have hfsm : fsm = RegexFSM.mk p := RegexFSM_new_ok_eq p emptyGlobal fsm hc
  subst hfsm
  rw [check_string_mk]
  exact matchChecked_correct _ s p 0 0 (by omega) (by omega)

/-- Witness for the claim C6 theorem at `p = "a"`, `s = "b"`. -/
theorem match_never_raises_witness :
    matchChecked ((['b'] : List Char).length + (['a'] : List Char).length + 1)
        ['b'] (RegexFSM.mk ['a']).regex_expr 0 0
      = MRes.ok (check_string (RegexFSM.mk ['a']) ['b']) :=
  match_never_raises ['a'] (RegexFSM.mk ['a']) rfl ['b']

/-- Claim C7: the matching recursion always terminates, with the recursion
depth bounded by the input length plus the pattern length: a budget of
`len(s) + len(p) + 1` always suffices for the evaluator to return the
verdict instead of `MRes.fuelOut`. -/
theorem match_recursion_bounded (s p : List Char) (i j : Nat)
    (hj : j ≤ p.length) :
    ∃ n, n ≤ s.length + p.length + 1
      ∧ matchChecked n s p i j = MRes.ok (matchRec s p i j) :=
  ⟨s.length - i + (p.length - j) + 1, by omega,
   matchChecked_correct _ s p i j (by omega) hj⟩

/-- Witness for the claim C7 theorem at `s = "a"`, `p = "a"`, `i = 0`,
`j = 0`. -/
theorem match_recursion_bounded_witness :
    ∃ n, n ≤ (['a'] : List Char).length + (['a'] : List Char).length + 1
      ∧ matchChecked n ['a'] ['a'] 0 0 = MRes.ok (matchRec ['a'] ['a'] 0 0) :=
  match_recursion_bounded ['a'] ['a'] 0 0 (by decide)

/-- Claim C8: two successful compilations of the same pattern string, from
any two shared-state contents, produce objects with identical matching
behaviour on every input string. -/
theorem compile_twice_same_behavior (p : List Char) (g1 g2 : GlobalState)
    (f1 f2 : RegexFSM) (s : List Char)
    (h1 : (RegexFSM_new p g1).1 = Except.ok f1)
    (h2 : (RegexFSM_new p g2).1 = Except.ok f2) :
    check_string f1 s = check_string f2 s := by
  rw [RegexFSM_new_ok_eq p g1 f1 h1, RegexFSM_new_ok_eq p g2 f2 h2]

/-- Witness for the claim C8 theorem: `"a"` compiled from the fresh shared
state and again from the state the first compilation left behind. -/
theorem compile_twice_same_behavior_witness :
    check_string (RegexFSM.mk ['a']) ['b'] = check_string (RegexFSM.mk ['a']) ['b'] :=
  compile_twice_same_behavior ['a'] emptyGlobal (RegexFSM_new ['a'] emptyGlobal).2
    (RegexFSM.mk ['a']) (RegexFSM.mk ['a']) ['b'] rfl rfl

/-- Claim C9 is contradicted by the code: `RegexFSM.curr_state` is a
class-level `StartState` shared by every instance, and each `__init__`
appends to its `next_states` list.  Compiling `"a"` once leaves the shared
list `[AsciiState('a'), TerminationState]`; compiling `"a"` again grows it to
twice that, so the second compilation mutates state reachable from the first
compiled pattern through `curr_state`. -/
theorem compile_mutates_shared_state :
    ((RegexFSM_new ['a'] emptyGlobal).2
      = GlobalState.mk [StateObj.ascii 'a', StateObj.termination])
    ∧ ((RegexFSM_new ['a'] (RegexFSM_new ['a'] emptyGlobal).2).2
      = GlobalState.mk [StateObj.ascii 'a', StateObj.termination,
                        StateObj.ascii 'a', StateObj.termination])
    ∧ (RegexFSM_new ['a'] (RegexFSM_new ['a'] emptyGlobal).2).2
      ≠ (RegexFSM_new ['a'] emptyGlobal).2 :=
  ⟨rfl, rfl, by decide⟩

/-- Claim C10: matching any pattern string — including one beginning with a
quantifier or containing two consecutive quantifiers — returns a boolean
without raising or dereferencing a missing element; a `'*'` or `'+'` at a
pattern position not itself followed by a quantifier is handled by the
matcher as a literal character, and in particular the pattern `"*"` matches
exactly the one-character input `"*"`. -/
theorem quantifier_as_literal (s p : List Char) (i j : Nat)
    (s2 p2 t : List Char)
    (hquant : p.getD j ' ' = '*' ∨ p.getD j ' ' = '+')
    (hnof : ¬ (j + 1 < p.length ∧ (p.getD (j+1) ' ' = '*' ∨ p.getD (j+1) ' ' = '+'))) :
    (matchRec s p i j = (firstMatchAt s p i j && matchRec s p (i+1) (j+1)))
    ∧ (matchChecked (s2.length + p2.length + 1) s2 p2 0 0
        = MRes.ok (check_string (RegexFSM.mk p2) s2))
    ∧ (matchesP ['*'] t = some (decide (t = ['*']))) := by
  have hjlt : j < p.length := by
    by_contra hge
    push_neg at hge
    have hd : p.getD j ' ' = ' ' := List.getD_eq_default p ' ' hge
    rcases hquant with h | h <;> rw [hd] at h <;> exact absurd h (by decide)
  refine ⟨?_, ?_, ?_⟩
  · rw [matchRec_eq, if_neg (by omega), if_neg hnof]
  · rw [check_string_mk]
    exact matchChecked_correct _ s2 p2 0 0 (by omega) (by omega)
  · unfold matchesP compileFSM
    rw [RegexFSM_new_fst, if_pos (by decide)]
    dsimp only
    rw [check_string_mk]
    cases t with
    | nil =>
      rw [matchRec_eq]
      simp [firstMatchAt]
    | cons c t2 =>
      cases t2 with
      | nil =>
        rw [matchRec_eq, if_neg (by decide), if_neg (by decide)]
        rw [show matchRec [c] ['*'] 1 1 = true from by rw [matchRec_eq]; simp]
        by_cases hc : c = '*'
        · subst hc; decide
        · have hc2 : ¬ ('*' = c) := fun h => hc h.symm
          simp [firstMatchAt, hc, hc2]
      | cons c2 t3 =>
        rw [matchRec_eq, if_neg (by decide), if_neg (by decide)]
        rw [show matchRec (c :: c2 :: t3) ['*'] 1 1 = false from by
          rw [matchRec_eq]; simp]
        simp [firstMatchAt]

/-- Witness for the claim C10 theorem at `p = s = "*a"`, `i = j = 0`,
`s2 = "b"`, `p2 = "**"`, `t = "*"`. -/
theorem quantifier_as_literal_witness :
    (matchRec ['*','a'] ['*','a'] 0 0
      = (firstMatchAt ['*','a'] ['*','a'] 0 0 && matchRec ['*','a'] ['*','a'] 1 1))
    ∧ (matchChecked ((['b'] : List Char).length + (['*','*'] : List Char).length + 1)
        ['b'] ['*','*'] 0 0 = MRes.ok (check_string (RegexFSM.mk ['*','*']) ['b']))
    ∧ (matchesP ['*'] ['*'] = some (decide ((['*'] : List Char) = ['*']))) :=
  quantifier_as_literal ['*','a'] ['*','a'] 0 0 ['b'] ['*','*'] ['*']
    (by decide) (by decide)
